import Mathlib

/-!
Verification of the claude-token-provider configuration pipeline.

This file shallowly embeds the core of the Rust program: the recursive
JSON deep-merge (`src/config/merger.rs`), the config-file load/apply
workflow (`src/config/file_ops.rs`), the key/nonce decode-and-validate
functions and the AES-256-GCM wrapper contract (`src/crypto/mod.rs`),
and the top-level success/failure plumbing of `main` and
`run_application` (`src/main.rs`), and proves the specified properties
about them.
-/

namespace TokenProvider

/-- The error enum from `src/errors.rs` (`TokenProviderError`).
`InvalidBase64` carries the underlying decode error rendered as a string;
`InvalidKeyLength`/`InvalidIvLength` carry the actual decoded byte count. -/
inductive TokenProviderError where
  | InvalidBase64 (msg : String)
  | InvalidKeyLength (actual : Nat)
  | InvalidIvLength (actual : Nat)
  | CryptoError (msg : String)
  | JsonError (msg : String)
  | IoError (msg : String)
  | SelfDeletionError (msg : String)
deriving DecidableEq, Repr

/-- `serde_json::Value`: the recursive JSON document tree.  Objects are
modelled as association lists of (key, sub-document) pairs; the
`serde_json::Map` invariant that keys are unique is captured separately by
`Value.WF`. -/
inductive Value where
  | null
  | bool (b : Bool)
  | num (n : Int)
  | str (s : String)
  | arr (elems : List Value)
  | obj (fields : List (String × Value))

namespace Value

/-- Whether an association list of object fields contains a key
(`serde_json::Map::get`-style membership). -/
def containsKey (fields : List (String × Value)) (k : String) : Bool :=
  match fields with
  | [] => false
  | (k', _) :: rest => k' = k || containsKey rest k

/-- First-occurrence lookup in an object's field list
(`serde_json::Map::get`). -/
def lookup (fields : List (String × Value)) (k : String) : Option Value :=
  match fields with
  | [] => none
  | (k', v) :: rest => if k' = k then some v else lookup rest k

end Value

mutual

/-- `deep_merge_json` from `src/config/merger.rs`, with the `Result`
plumbing stripped (see `deep_merge_jsonE` for the faithful `Result`
signature and `deep_merge_jsonE_eq_ok` relating the two): if both sides
are objects their fields are merged recursively, otherwise the new value
replaces the existing one. -/
def deep_merge_json : Value → Value → Value
  | Value.obj existing, Value.obj new => Value.obj (merge_objects existing new)
  | _, new => new
termination_by v₁ v₂ => (sizeOf v₂, 0 + 0 * sizeOf v₁)

/-- `merge_objects` from `src/config/merger.rs`: folds every (key, value)
entry of `new` into `existing`, left to right. -/
def merge_objects (existing : List (String × Value)) :
    List (String × Value) → List (String × Value)
  | [] => existing
  | (k, v) :: rest => merge_objects (merge_entry existing k v) rest
termination_by new => (sizeOf new, 0)

/-- One iteration of the `merge_objects` loop body: if `k` is already
present in `existing` (`existing.get_mut` returns `Some`), the stored value
is deep-merged with `v` in place; otherwise `(k, v)` is inserted. -/
def merge_entry (existing : List (String × Value)) (k : String) (v : Value) :
    List (String × Value) :=
  match existing with
  | [] => [(k, v)]
  | (k', v') :: rest =>
      if k' = k then (k', deep_merge_json v' v) :: rest
      else (k', v') :: merge_entry rest k v
termination_by (1 + sizeOf v, sizeOf existing)

end

/-- Whether a JSON value is an object (`Value::Object` in serde_json). -/
def Value.isObj : Value → Bool
  | Value.obj _ => true
  | _ => false

/-- Unique-key check for one object's field list: no key occurs twice
(the `serde_json::Map` representation invariant). -/
def nodupKeys : List (String × Value) → Bool
  | [] => true
  | (k, _) :: rest => !Value.containsKey rest k && nodupKeys rest

mutual

/-- Well-formed document: every object node in the tree has pairwise
distinct keys, which `serde_json::Map` guarantees for every `Value`
produced by parsing or by the program (the spec's Document has
"mappings from unique string keys"). -/
def wf : Value → Bool
  | Value.null => true
  | Value.bool _ => true
  | Value.num _ => true
  | Value.str _ => true
  | Value.arr elems => wfList elems
  | Value.obj fields => nodupKeys fields && wfFields fields

/-- All array elements are well-formed documents. -/
def wfList : List Value → Bool
  | [] => true
  | v :: rest => wf v && wfList rest

/-- All object field values are well-formed documents. -/
def wfFields : List (String × Value) → Bool
  | [] => true
  | (_, v) :: rest => wf v && wfFields rest

end

mutual

/-- `deep_merge_json` from `src/config/merger.rs` with its exact
`Result`-returning signature: the Rust function mutates `existing` in
place and returns `Result<()>`, embedded here as returning the final
state of `existing` inside `Except`. -/
def deep_merge_jsonE : Value → Value → Except TokenProviderError Value
  | Value.obj existing, Value.obj new =>
      match merge_objectsE existing new with
      | Except.error e => Except.error e
      | Except.ok m => Except.ok (Value.obj m)
  | _, new => Except.ok new
termination_by v₁ v₂ => (sizeOf v₂, 0 + 0 * sizeOf v₁)

/-- `merge_objects` from `src/config/merger.rs` with the `Result` (`?`)
propagation kept: any error from a recursive merge aborts the loop. -/
def merge_objectsE (existing : List (String × Value)) :
    List (String × Value) → Except TokenProviderError (List (String × Value))
  | [] => Except.ok existing
  | (k, v) :: rest =>
      match merge_entryE existing k v with
      | Except.error e => Except.error e
      | Except.ok existing' => merge_objectsE existing' rest
termination_by new => (sizeOf new, 0)

/-- One iteration of the `merge_objectsE` loop body with `Result`
propagation from the recursive `deep_merge_json` call. -/
def merge_entryE (existing : List (String × Value)) (k : String) (v : Value) :
    Except TokenProviderError (List (String × Value)) :=
  match existing with
  | [] => Except.ok [(k, v)]
  | (k', v') :: rest =>
      if k' = k then
        match deep_merge_jsonE v' v with
        | Except.error e => Except.error e
        | Except.ok v'' => Except.ok ((k', v'') :: rest)
      else
        match merge_entryE rest k v with
        | Except.error e => Except.error e
        | Except.ok rest' => Except.ok ((k', v') :: rest')
termination_by (1 + sizeOf v, sizeOf existing)

end

/-! ### Structural lemmas about the merge -/

theorem lookup_eq_none_of_containsKey_eq_false {m : List (String × Value)} {k : String}
    (h : Value.containsKey m k = false) : Value.lookup m k = none := by
  induction m with
  | nil => rfl
  | cons p rest ih =>
      obtain ⟨k', v'⟩ := p
      rw [Value.containsKey] at h
      rw [Value.lookup]
      rcases Bool.or_eq_false_iff.mp h with ⟨h1, h2⟩
      rw [if_neg (by simpa using h1)]
      exact ih h2

theorem containsKey_of_mem {m : List (String × Value)} {k : String} {v : Value}
    (h : (k, v) ∈ m) : Value.containsKey m k = true := by
  induction m with
  | nil => cases h
  | cons p rest ih =>
      obtain ⟨k', v'⟩ := p
      rw [Value.containsKey]
      rcases List.mem_cons.mp h with h | h
      · obtain ⟨rfl, rfl⟩ := Prod.mk.injEq .. ▸ h
        simp
      · simp [ih h]

theorem lookup_of_mem_nodup {m : List (String × Value)} {k : String} {v : Value}
    (hnd : nodupKeys m = true) (h : (k, v) ∈ m) : Value.lookup m k = some v := by
  induction m with
  | nil => cases h
  | cons p rest ih =>
      obtain ⟨k', v'⟩ := p
      rw [nodupKeys, Bool.and_eq_true] at hnd
      rw [Value.lookup]
      rcases List.mem_cons.mp h with h | h
      · obtain ⟨rfl, rfl⟩ := Prod.mk.injEq .. ▸ h
        simp
      · have hne : ¬ k' = k := by
          intro hkk
          subst hkk
          have := containsKey_of_mem h
          simp [this] at hnd
        rw [if_neg hne]
        exact ih hnd.2 h

theorem lookup_merge_entry (e : List (String × Value)) (k : String) (v : Value)
    (k' : String) :
    Value.lookup (merge_entry e k v) k' =
      if k' = k then
        match Value.lookup e k with
        | some x => some (deep_merge_json x v)
        | none => some v
      else Value.lookup e k' := by
  induction e with
  | nil =>
      by_cases hk : k' = k
      · subst hk; simp [merge_entry, Value.lookup]
      · simp [merge_entry, Value.lookup, hk, Ne.symm hk]
  | cons p rest ih =>
      obtain ⟨k₀, v₀⟩ := p
      by_cases h0 : k₀ = k
      · subst h0
        by_cases hk : k' = k₀
        · subst hk; simp [merge_entry, Value.lookup]
        · simp [merge_entry, Value.lookup, hk, Ne.symm hk]
      · by_cases hk : k' = k₀
        · have hk2 : ¬ k' = k := fun h => h0 (hk.symm.trans h)
          simp [merge_entry, Value.lookup, h0, hk, hk2]
        · simp [merge_entry, Value.lookup, h0, Ne.symm hk, ih]

theorem containsKey_merge_entry (e : List (String × Value)) (k : String) (v : Value)
    (k' : String) :
    Value.containsKey (merge_entry e k v) k' =
      (Value.containsKey e k' || (k = k')) := by
  induction e with
  | nil => simp [merge_entry, Value.containsKey, eq_comm]
  | cons p rest ih =>
      obtain ⟨k₀, v₀⟩ := p
      rw [merge_entry]
      by_cases h0 : k₀ = k
      · subst h0
        by_cases hk : k₀ = k'
        · simp [Value.containsKey, hk]
        · simp [Value.containsKey, hk]
      · rw [if_neg h0, Value.containsKey, ih, Value.containsKey]
        cases h : (decide (k₀ = k') : Bool) <;> simp_all [Bool.or_assoc]

theorem containsKey_merge_objects (e n : List (String × Value)) (k : String) :
    Value.containsKey (merge_objects e n) k =
      (Value.containsKey e k || Value.containsKey n k) := by
  induction n generalizing e with
  | nil => simp [merge_objects, Value.containsKey]
  | cons p rest ih =>
      obtain ⟨k₀, v₀⟩ := p
      rw [merge_objects, ih, containsKey_merge_entry, Value.containsKey]
      cases h : (decide (k₀ = k) : Bool) <;> simp_all [eq_comm, Bool.or_assoc, Bool.or_comm]

theorem lookup_merge_objects (e n : List (String × Value)) (k : String)
    (hnd : nodupKeys n = true) :
    Value.lookup (merge_objects e n) k =
      match Value.lookup n k with
      | some v =>
          match Value.lookup e k with
          | some x => some (deep_merge_json x v)
          | none => some v
      | none => Value.lookup e k := by
  induction n generalizing e with
  | nil => simp [merge_objects, Value.lookup]
  | cons p rest ih =>
      obtain ⟨k₀, v₀⟩ := p
      rw [nodupKeys, Bool.and_eq_true] at hnd
      rw [merge_objects, ih _ hnd.2]
      by_cases hk : k = k₀
      · subst hk
        have hrest : Value.lookup rest k = none :=
          lookup_eq_none_of_containsKey_eq_false (by simpa using hnd.1)
        rw [hrest, Value.lookup, if_pos rfl, lookup_merge_entry, if_pos rfl]
      · rw [Value.lookup, if_neg (fun h => hk h.symm)]
        cases hr : Value.lookup rest k with
        | some v => rw [lookup_merge_entry, if_neg hk]
        | none => rw [lookup_merge_entry, if_neg hk]

theorem merge_entry_self {m : List (String × Value)} {k : String} {v : Value}
    (hc : Value.containsKey m k = true)
    (hv : ∀ x, Value.lookup m k = some x → deep_merge_json x v = x) :
    merge_entry m k v = m := by
  induction m with
  | nil => simp [Value.containsKey] at hc
  | cons p rest ih =>
      obtain ⟨k₀, v₀⟩ := p
      rw [merge_entry]
      by_cases h0 : k₀ = k
      · subst h0
        rw [if_pos rfl]
        have : deep_merge_json v₀ v = v₀ := hv v₀ (by rw [Value.lookup, if_pos rfl])
        rw [this]
      · rw [if_neg h0]
        rw [Value.containsKey, Bool.or_eq_true] at hc
        rcases hc with hc | hc
        · exact absurd (by simpa using hc) h0
        · rw [ih hc fun x hx => hv x (by rw [Value.lookup, if_neg h0]; exact hx)]

theorem merge_objects_self {m n : List (String × Value)}
    (h : ∀ p ∈ n, merge_entry m p.1 p.2 = m) :
    merge_objects m n = m := by
  induction n with
  | nil => rw [merge_objects]
  | cons p rest ih =>
      obtain ⟨k, v⟩ := p
      rw [merge_objects, h (k, v) (List.mem_cons_self _ _)]
      exact ih fun q hq => h q (List.mem_cons_of_mem _ hq)

theorem wf_of_mem_wfFields {fields : List (String × Value)} {k : String} {v : Value}
    (h : (k, v) ∈ fields) (hwf : wfFields fields = true) : wf v = true := by
  induction fields with
  | nil => cases h
  | cons p rest ih =>
      obtain ⟨k', v'⟩ := p
      rw [wfFields, Bool.and_eq_true] at hwf
      rcases List.mem_cons.mp h with h | h
      · obtain ⟨rfl, rfl⟩ := Prod.mk.injEq .. ▸ h
        exact hwf.1
      · exact ih h hwf.2

theorem sizeOf_snd_lt_obj {fields : List (String × Value)} {p : String × Value}
    (h : p ∈ fields) : sizeOf p.2 < sizeOf (Value.obj fields) := by
  have h1 := List.sizeOf_lt_of_mem h
  obtain ⟨a, b⟩ := p
  simp only [Value.obj.sizeOf_spec, Prod.mk.sizeOf_spec] at h1 ⊢
  omega

/-- The replace branch of `deep_merge_json`: whenever the two sides are not
both objects, the new value replaces the existing one wholesale. -/
theorem deep_merge_replace (a b : Value)
    (h : a.isObj = false ∨ b.isObj = false) : deep_merge_json a b = b := by
  cases a <;> cases b <;> simp [deep_merge_json, Value.isObj] at h ⊢

/-- Merging a well-formed document into itself is the identity. -/
theorem deep_merge_self (v : Value) (h : wf v = true) :
    deep_merge_json v v = v := by
  match v, h with
  | Value.null, _ => simp [deep_merge_json]
  | Value.bool b, _ => simp [deep_merge_json]
  | Value.num n, _ => simp [deep_merge_json]
  | Value.str s, _ => simp [deep_merge_json]
  | Value.arr l, _ => simp [deep_merge_json]
  | Value.obj fields, h =>
      rw [wf, Bool.and_eq_true] at h
      have hdm : deep_merge_json (Value.obj fields) (Value.obj fields)
          = Value.obj (merge_objects fields fields) := by simp [deep_merge_json]
      rw [hdm]
      congr 1
      apply merge_objects_self
      intro p hp
      have hmem : (p.1, p.2) ∈ fields := by simpa using hp
      apply merge_entry_self (containsKey_of_mem hmem)
      intro x hx
      rw [lookup_of_mem_nodup h.1 hmem] at hx
      obtain rfl : p.2 = x := by injection hx
      exact deep_merge_self p.2 (wf_of_mem_wfFields hmem h.2)
termination_by sizeOf v
decreasing_by exact sizeOf_snd_lt_obj hp

/-- Idempotence of the deep merge: re-merging the overlay into its own
prior result is a no-op, for any well-formed overlay. -/
theorem deep_merge_idem_aux (a b : Value) (h : wf b = true) :
    deep_merge_json (deep_merge_json a b) b = deep_merge_json a b := by
  match a, b, h with
  | a, Value.null, _ =>
      rw [deep_merge_replace a _ (Or.inr (by rfl)), deep_merge_replace _ _ (Or.inr (by rfl))]
  | a, Value.bool b, _ =>
      rw [deep_merge_replace a _ (Or.inr (by rfl)), deep_merge_replace _ _ (Or.inr (by rfl))]
  | a, Value.num n, _ =>
      rw [deep_merge_replace a _ (Or.inr (by rfl)), deep_merge_replace _ _ (Or.inr (by rfl))]
  | a, Value.str s, _ =>
      rw [deep_merge_replace a _ (Or.inr (by rfl)), deep_merge_replace _ _ (Or.inr (by rfl))]
  | a, Value.arr l, _ =>
      rw [deep_merge_replace a _ (Or.inr (by rfl)), deep_merge_replace _ _ (Or.inr (by rfl))]
  | Value.null, Value.obj n, h =>
      rw [deep_merge_replace Value.null _ (Or.inl (by rfl))]
      exact deep_merge_self _ h
  | Value.bool b, Value.obj n, h =>
      rw [deep_merge_replace (Value.bool b) _ (Or.inl (by rfl))]
      exact deep_merge_self _ h
  | Value.num m, Value.obj n, h =>
      rw [deep_merge_replace (Value.num m) _ (Or.inl (by rfl))]
      exact deep_merge_self _ h
  | Value.str s, Value.obj n, h =>
      rw [deep_merge_replace (Value.str s) _ (Or.inl (by rfl))]
      exact deep_merge_self _ h
  | Value.arr l, Value.obj n, h =>
      rw [deep_merge_replace (Value.arr l) _ (Or.inl (by rfl))]
      exact deep_merge_self _ h
  | Value.obj e, Value.obj n, h =>
      rw [wf, Bool.and_eq_true] at h
      have hdm : deep_merge_json (Value.obj e) (Value.obj n)
          = Value.obj (merge_objects e n) := by simp [deep_merge_json]
      have hdm2 : deep_merge_json (Value.obj (merge_objects e n)) (Value.obj n)
          = Value.obj (merge_objects (merge_objects e n) n) := by simp [deep_merge_json]
      rw [hdm, hdm2]
      congr 1
      apply merge_objects_self
      intro p hp
      have hmem : (p.1, p.2) ∈ n := by simpa using hp
      have hwfp : wf p.2 = true := wf_of_mem_wfFields hmem h.2
      apply merge_entry_self
      · rw [containsKey_merge_objects]
        simp [containsKey_of_mem hmem]
      · intro x hx
        rw [lookup_merge_objects _ _ _ h.1, lookup_of_mem_nodup h.1 hmem] at hx
        cases he : Value.lookup e p.1 with
        | some x₀ =>
            rw [he] at hx
            obtain rfl : deep_merge_json x₀ p.2 = x := by injection hx
            exact deep_merge_idem_aux x₀ p.2 hwfp
        | none =>
            rw [he] at hx
            obtain rfl : p.2 = x := by injection hx
            exact deep_merge_self p.2 hwfp
termination_by sizeOf b
decreasing_by exact sizeOf_snd_lt_obj hp

/-- The `Result`-returning merge always succeeds and computes the same
document as the pure merge: the error branch of `deep_merge_json` is dead
code. -/
theorem mergeE_refines (a b : Value) :
    deep_merge_jsonE a b = Except.ok (deep_merge_json a b) := by
  refine deep_merge_json.induct
    (fun a b => deep_merge_jsonE a b = Except.ok (deep_merge_json a b))
    (fun e n => merge_objectsE e n = Except.ok (merge_objects e n))
    (fun e k v => merge_entryE e k v = Except.ok (merge_entry e k v))
    ?_ ?_ ?_ ?_ ?_ ?_ ?_ a b
  · intro e n h
    simp [deep_merge_jsonE, deep_merge_json, h]
  · intro x new h
    cases x <;> cases new <;>
      first
        | exact (h _ _ rfl rfl).elim
        | simp [deep_merge_jsonE, deep_merge_json]
  · intro e
    simp [merge_objectsE, merge_objects]
  · intro e k v rest h3 h2
    simp [merge_objectsE, merge_objects, h3, h2]
  · intro k v
    simp [merge_entryE, merge_entry]
  · intro v k' v₁ rest h1
    simp [merge_entryE, merge_entry, h1]
  · intro k v k' v₁ rest hne h3
    simp [merge_entryE, merge_entry, hne, h3]

theorem merge_entry_of_not_containsKey {e : List (String × Value)} {k : String}
    (v : Value) (h : Value.containsKey e k = false) :
    merge_entry e k v = e ++ [(k, v)] := by
  induction e with
  | nil => rw [merge_entry]; rfl
  | cons p rest ih =>
      obtain ⟨k₀, v₀⟩ := p
      rw [Value.containsKey] at h
      rcases Bool.or_eq_false_iff.mp h with ⟨h1, h2⟩
      rw [merge_entry, if_neg (by simpa using h1), ih h2]
      rfl

theorem containsKey_append (e₁ e₂ : List (String × Value)) (k : String) :
    Value.containsKey (e₁ ++ e₂) k
      = (Value.containsKey e₁ k || Value.containsKey e₂ k) := by
  induction e₁ with
  | nil => simp [Value.containsKey]
  | cons p rest ih =>
      obtain ⟨k₀, v₀⟩ := p
      rw [List.cons_append, Value.containsKey, ih, Value.containsKey, Bool.or_assoc]

theorem merge_objects_disjoint_append (n : List (String × Value)) :
    ∀ e : List (String × Value), nodupKeys n = true →
      (∀ p ∈ n, Value.containsKey e p.1 = false) →
      merge_objects e n = e ++ n := by
  induction n with
  | nil => intro e _ _; rw [merge_objects]; simp
  | cons p rest ih =>
      intro e hnd hd
      obtain ⟨k, v⟩ := p
      rw [nodupKeys, Bool.and_eq_true] at hnd
      rw [merge_objects,
        merge_entry_of_not_containsKey v (hd (k, v) (List.mem_cons_self _ _)),
        ih _ hnd.2, List.append_assoc]
      · rfl
      · intro q hq
        rw [containsKey_append]
        have h1 : Value.containsKey e q.1 = false := hd q (List.mem_cons_of_mem _ hq)
        have h2 : ¬ k = q.1 := by
          intro hk
          have hmem : (q.1, q.2) ∈ rest := by simpa using hq
          have hck : Value.containsKey rest q.1 = true := containsKey_of_mem hmem
          rw [hk] at hnd
          simp [hck] at hnd
        simp [Value.containsKey, h1, h2]

/-- Merging any well-formed document into an empty mapping base yields
that document itself: an absent or discarded config file behaves exactly
like an empty-mapping merge base. -/
theorem deep_merge_empty_base (new : Value) (h : wf new = true) :
    deep_merge_json (Value.obj []) new = new := by
  cases new with
  | obj n =>
      rw [wf, Bool.and_eq_true] at h
      have hdm : deep_merge_json (Value.obj []) (Value.obj n)
          = Value.obj (merge_objects [] n) := by simp [deep_merge_json]
      rw [hdm, merge_objects_disjoint_append n [] h.1 (fun p _ => rfl)]
      rfl
  | null => simp [deep_merge_json]
  | bool b => simp [deep_merge_json]
  | num n => simp [deep_merge_json]
  | str s => simp [deep_merge_json]
  | arr l => simp [deep_merge_json]

/-! ### Config store (`src/config/file_ops.rs`) -/

/-- The observable state of the config file at `~/.claude/settings.json`
when `read_existing_config` runs: the file may be absent
(`!config_path.exists()`), unreadable (`fs::read_to_string` fails),
present but not valid JSON (`serde_json::from_str` fails), or present and
parsed to a document. -/
inductive FileContent where
  | absent
  | unreadable (ioMsg : String)
  | invalid (content : String)
  | valid (v : Value)

/-- `read_existing_config` from `src/config/file_ops.rs`: `Ok(None)` when
the file is absent, propagated `IoError` when reading fails, `Ok(None)`
(after printing a warning) when the content does not parse, and
`Ok(Some(json))` when it parses. -/
def read_existing_config : FileContent → Except TokenProviderError (Option Value)
  | FileContent.absent => Except.ok none
  | FileContent.unreadable m => Except.error (TokenProviderError.IoError m)
  | FileContent.invalid _ => Except.ok none
  | FileContent.valid v => Except.ok (some v)

/-- Whether `read_existing_config` prints its
"Existing config file is not valid JSON and will be replaced" warning:
exactly in the exists-but-unparsable branch. -/
def read_existing_config_warns : FileContent → Bool
  | FileContent.invalid _ => true
  | _ => false

/-- `apply_config_update` from `src/config/file_ops.rs`, with the
filesystem boundary abstracted: path resolution, directory creation and
the final `write_config` are I/O steps taken as succeeding here, and the
embedding returns the `final_config` document handed to `write_config`
(or the propagated error).  The decision logic — merge into the existing
document when one was read, otherwise use `new_config` directly — is kept
exactly. -/
def apply_config_update (fc : FileContent) (new_config : Value) :
    Except TokenProviderError Value :=
  match read_existing_config fc with
  | Except.error e => Except.error e
  | Except.ok (some existing) =>
      match deep_merge_jsonE existing new_config with
      | Except.error e => Except.error e
      | Except.ok merged => Except.ok merged
  | Except.ok none => Except.ok new_config

/-- The Config Store `load` contract as the spec words it: an absent or
unparsable file loads as the empty mapping, a parsed file loads as its
document. -/
def load_spec : FileContent → Value
  | FileContent.absent => Value.obj []
  | FileContent.invalid _ => Value.obj []
  | FileContent.unreadable _ => Value.obj []
  | FileContent.valid v => v

/-! ### Top-level control flow (`src/main.rs`) -/

/-- The `main` function's outcome plumbing from `src/main.rs`, as a
function of the pipeline outcome (`run_application()`) and the outcome of
the one `perform_self_deletion()` attempt made for that run: on pipeline
failure the cleanup runs and the original error is returned whether or
not cleanup fails; on pipeline success a failing cleanup's error is
returned. -/
def main_result (app : Except TokenProviderError Unit)
    (deletion : Except TokenProviderError Unit) :
    Except TokenProviderError Unit :=
  match app with
  | Except.error e =>
      match deletion with
      | Except.error _ => Except.error e
      | Except.ok _ => Except.error e
  | Except.ok _ =>
      match deletion with
      | Except.ok _ => Except.ok ()
      | Except.error d => Except.error d

/-- A 32-byte key, `[u8; 32]` in `src/crypto/mod.rs` (`KEY_SIZE = 32`). -/
def Key : Type := Fin 32 → Nat

/-- A 12-byte nonce, `[u8; 12]` in `src/crypto/mod.rs`
(`NONCE_SIZE = 12`). -/
def Nonce : Type := Fin 12 → Nat

/-- `run_application` from `src/main.rs`, parameterized over its
collaborators: the outcomes of the two credential prompts, the
build-generated `ENCRYPTED_CONFIG` constant (absent from the sources, it
is produced by the constant generator), the decrypt primitive, UTF-8
decoding, JSON parsing, and the config-store update.  The control flow —
credentials, then the emptiness check on the embedded ciphertext, then
decrypt, UTF-8, parse, apply — is the source's. -/
def run_application
    (get_secret_key : Except TokenProviderError Key)
    (get_nonce : Except TokenProviderError Nonce)
    (encrypted_config : List Nat)
    (decrypt : List Nat → Key → Nonce → Except TokenProviderError (List Nat))
    (from_utf8 : List Nat → Except TokenProviderError String)
    (from_str : String → Except TokenProviderError Value)
    (apply_update : Value → Except TokenProviderError Unit) :
    Except TokenProviderError Unit := do
  let key ← get_secret_key
  let nonce ← get_nonce
  if encrypted_config.isEmpty then
    Except.error (TokenProviderError.CryptoError
      "No encrypted configuration data found. Please run Phase 8 to generate encrypted constants.")
  else do
    let decrypted ← decrypt encrypted_config key nonce
    let text ← from_utf8 decrypted
    let json ← from_str text
    apply_update json

/-! ### Codec and input validation (`src/crypto/mod.rs`) -/

/-- CTR-mode byte stream: XOR the data with the keystream, one byte at a
time starting from stream position `i`. -/
def ctr_xor (ks : Nat → Nat) : Nat → List Nat → List Nat
  | _, [] => []
  | i, b :: rest => (b ^^^ ks i) :: ctr_xor ks (i + 1) rest

/-- Modelled from the spec: `encrypt_data` wraps the aes_gcm crate's
AES-256-GCM `encrypt`, whose internals are not part of the repository's
sources.  Per the spec's Codec contract the output is the standard AEAD
construction `ciphertext || tag` with a 16-byte tag: the plaintext is
XORed with a keystream determined by the key and nonce (`ksb key nonce i`
is the keystream byte at position `i`), and a deterministic 16-byte
authentication tag (`tagf`) over the ciphertext is appended.  The cipher
core is a parameter, so every theorem below holds for any keystream and
tag function — in particular AES-256-GCM's. -/
def encrypt_data (ksb : Key → Nonce → Nat → Nat)
    (tagf : Key → Nonce → List Nat → Fin 16 → Nat)
    (data : List Nat) (key : Key) (nonce : Nonce) :
    Except TokenProviderError (List Nat) :=
  let c := ctr_xor (ksb key nonce) 0 data
  Except.ok (c ++ List.ofFn (tagf key nonce c))

/-- Modelled from the spec: `decrypt_data` wraps the aes_gcm crate's
AES-256-GCM `decrypt`.  Per the spec's Codec contract it fails with an
authentication error when the input is shorter than the 16-byte tag or
when the recomputed tag over the ciphertext part does not match the
appended tag; otherwise it inverts the keystream XOR. -/
def decrypt_data (ksb : Key → Nonce → Nat → Nat)
    (tagf : Key → Nonce → List Nat → Fin 16 → Nat)
    (ciphertext : List Nat) (key : Key) (nonce : Nonce) :
    Except TokenProviderError (List Nat) :=
  if ciphertext.length < 16 then
    Except.error (TokenProviderError.CryptoError "aead::Error")
  else
    let c := ciphertext.take (ciphertext.length - 16)
    let t := ciphertext.drop (ciphertext.length - 16)
    if t = List.ofFn (tagf key nonce c) then
      Except.ok (ctr_xor (ksb key nonce) 0 c)
    else
      Except.error (TokenProviderError.CryptoError "aead::Error")

/-- `decode_and_validate_key` from `src/crypto/mod.rs`, parameterized
over the base64 crate's `STANDARD.decode` (external): a decode failure
becomes `InvalidBase64`; a decoded length other than `KEY_SIZE = 32`
becomes `InvalidKeyLength { actual }` carrying only the length; exactly
32 decoded bytes are returned unchanged (the source copies them into a
`[u8; 32]`). -/
def decode_and_validate_key
    (decode : String → Except String (List Nat)) (base64_key : String) :
    Except TokenProviderError (List Nat) :=
  match decode base64_key with
  | Except.error e => Except.error (TokenProviderError.InvalidBase64 e)
  | Except.ok decoded =>
      if decoded.length ≠ 32 then
        Except.error (TokenProviderError.InvalidKeyLength decoded.length)
      else
        Except.ok decoded

/-- `decode_and_validate_nonce` from `src/crypto/mod.rs`: as for the key,
with `NONCE_SIZE = 12` and `InvalidIvLength`. -/
def decode_and_validate_nonce
    (decode : String → Except String (List Nat)) (base64_nonce : String) :
    Except TokenProviderError (List Nat) :=
  match decode base64_nonce with
  | Except.error e => Except.error (TokenProviderError.InvalidBase64 e)
  | Except.ok decoded =>
      if decoded.length ≠ 12 then
        Except.error (TokenProviderError.InvalidIvLength decoded.length)
      else
        Except.ok decoded

theorem ctr_xor_length (ks : Nat → Nat) (i : Nat) (l : List Nat) :
    (ctr_xor ks i l).length = l.length := by
  induction l generalizing i with
  | nil => rfl
  | cons b rest ih => simp [ctr_xor, ih]

theorem ctr_xor_invol (ks : Nat → Nat) (i : Nat) (l : List Nat) :
    ctr_xor ks i (ctr_xor ks i l) = l := by
  induction l generalizing i with
  | nil => rfl
  | cons b rest ih =>
      simp only [ctr_xor, ih]
      rw [Nat.xor_assoc, Nat.xor_self, Nat.xor_zero]

/-! ### The claimed properties -/

/-- C1 (counterexample): the claim "for every run in which the pipeline
succeeds, the overall process result is still success even when the
subsequent self-deletion step fails" is false of `main`: with a
successful pipeline and a failed self-deletion, `main` returns the
self-deletion error, not success. -/
theorem self_deletion_failure_not_nonfatal :
    main_result (Except.ok ())
      (Except.error (TokenProviderError.SelfDeletionError
        "Failed to delete executable: Permission denied"))
      ≠ Except.ok () := by
  intro h
  simp [main_result] at h

/-- C1 (amended): when the pipeline succeeds and the subsequent
self-deletion fails, `main` reports that the configuration was applied
but returns the self-deletion error, so the overall process result is
that failure; the self-deletion error is surfaced as the process
outcome rather than being only reported separately. -/
theorem self_deletion_error_becomes_process_result (d : TokenProviderError) :
    main_result (Except.ok ()) (Except.error d) = Except.error d := rfl

/-- C2: the merge follows the two-case algorithm: when both sides are
objects the result is the recursive field merge, under which, for every
key, an overlay entry whose key exists in the base is deep-merged with the
base entry, an overlay entry with a fresh key is inserted directly, and
keys only in the base are left untouched; in every other pairing of node
kinds the overlay value replaces the base value wholesale (so sequences
are never merged element-wise). -/
theorem deep_merge_two_case_algorithm :
    (∀ (e n : List (String × Value)),
        deep_merge_json (Value.obj e) (Value.obj n)
          = Value.obj (merge_objects e n)) ∧
    (∀ (e n : List (String × Value)) (k : String), nodupKeys n = true →
        Value.lookup (merge_objects e n) k =
          match Value.lookup n k with
          | some v =>
              match Value.lookup e k with
              | some x => some (deep_merge_json x v)
              | none => some v
          | none => Value.lookup e k) ∧
    (∀ a b : Value, a.isObj = false ∨ b.isObj = false →
        deep_merge_json a b = b) :=
  ⟨fun e n => by simp [deep_merge_json],
   fun e n k hnd => lookup_merge_objects e n k hnd,
   fun a b h => deep_merge_replace a b h⟩

/-- C2 (witness): concrete instances — an overlay key present in the base
is recursively merged, and an object base is replaced wholesale by a
sequence overlay. -/
theorem deep_merge_two_case_algorithm_witness :
    Value.lookup
        (merge_objects [("a", Value.num 1)]
          [("a", Value.num 2), ("b", Value.num 3)]) "a"
      = some (deep_merge_json (Value.num 1) (Value.num 2))
    ∧ deep_merge_json (Value.obj [("x", Value.num 1)])
        (Value.arr [Value.num 1, Value.num 2, Value.num 3])
      = Value.arr [Value.num 1, Value.num 2, Value.num 3] := by
  constructor
  · have h := deep_merge_two_case_algorithm.2.1
      [("a", Value.num 1)] [("a", Value.num 2), ("b", Value.num 3)] "a"
      (by simp [nodupKeys, Value.containsKey])
    rw [h]
    simp [Value.lookup]
  · exact deep_merge_two_case_algorithm.2.2 _ _ (Or.inr rfl)

/-- C3: encrypt/decrypt round-trip: for every plaintext byte sequence,
32-byte key and 12-byte nonce — and any cipher core, in particular
AES-256-GCM's — decrypting the ciphertext produced by `encrypt_data`
under the same key and nonce succeeds and returns exactly the original
plaintext. -/
theorem encrypt_decrypt_roundtrip
    (ksb : Key → Nonce → Nat → Nat)
    (tagf : Key → Nonce → List Nat → Fin 16 → Nat)
    (data : List Nat) (key : Key) (nonce : Nonce) :
    ∃ c, encrypt_data ksb tagf data key nonce = Except.ok c ∧
         decrypt_data ksb tagf c key nonce = Except.ok data := by
  refine ⟨_, rfl, ?_⟩
  rw [decrypt_data]
  have hclen : (ctr_xor (ksb key nonce) 0 data).length = data.length :=
    ctr_xor_length _ _ _
  have hlen :
      (ctr_xor (ksb key nonce) 0 data
        ++ List.ofFn (tagf key nonce (ctr_xor (ksb key nonce) 0 data))).length
      = data.length + 16 := by
    simp [hclen]
  rw [if_neg (by omega)]
  have hcut :
      (ctr_xor (ksb key nonce) 0 data
        ++ List.ofFn (tagf key nonce (ctr_xor (ksb key nonce) 0 data))).length - 16
      = (ctr_xor (ksb key nonce) 0 data).length := by omega
  rw [hcut, List.take_left, List.drop_left, if_pos rfl, ctr_xor_invol]

/-- C4: merge idempotence: merging the overlay a second time into the
result of merging it into any base leaves the result unchanged, for every
base and every well-formed overlay (well-formed meaning the
`serde_json::Map` unique-key invariant holds, as it does for every
document the program builds). -/
theorem deep_merge_idempotent (a b : Value) (h : wf b = true) :
    deep_merge_json (deep_merge_json a b) b = deep_merge_json a b :=
  deep_merge_idem_aux a b h

/-- C4 (witness): idempotence at a concrete base and overlay. -/
theorem deep_merge_idempotent_witness :
    wf (Value.obj [("a", Value.num 1), ("c", Value.arr [Value.num 7])]) = true
    ∧ deep_merge_json
        (deep_merge_json (Value.obj [("b", Value.num 2)])
          (Value.obj [("a", Value.num 1), ("c", Value.arr [Value.num 7])]))
        (Value.obj [("a", Value.num 1), ("c", Value.arr [Value.num 7])])
      = deep_merge_json (Value.obj [("b", Value.num 2)])
          (Value.obj [("a", Value.num 1), ("c", Value.arr [Value.num 7])]) :=
  ⟨by simp [wf, wfFields, wfList, nodupKeys, Value.containsKey],
   deep_merge_idempotent _ _
     (by simp [wf, wfFields, wfList, nodupKeys, Value.containsKey])⟩

/-- C5: config load degrades to an empty base instead of failing: an
absent file reads as no document, an existing but unparsable file reads
as no document with the warning printed (not an error), and only a file
that parses is handed to the merge; consequently `apply_config_update`
behaves exactly as merging the overlay into the spec's `load` result,
where absent and unparsable files load as the empty mapping. -/
theorem config_load_degrades_to_empty_base :
    (read_existing_config FileContent.absent = Except.ok none) ∧
    (∀ s, read_existing_config (FileContent.invalid s) = Except.ok none
        ∧ read_existing_config_warns (FileContent.invalid s) = true) ∧
    (∀ v, read_existing_config (FileContent.valid v) = Except.ok (some v)) ∧
    (∀ (fc : FileContent) (new_config : Value), wf new_config = true →
      (∀ m, fc ≠ FileContent.unreadable m) →
      apply_config_update fc new_config
        = Except.ok (deep_merge_json (load_spec fc) new_config)) := by
  refine ⟨rfl, fun s => ⟨rfl, rfl⟩, fun v => rfl, ?_⟩
  intro fc new_config hwf hio
  cases fc with
  | absent =>
      simp [apply_config_update, read_existing_config, load_spec,
        deep_merge_empty_base new_config hwf]
  | unreadable m => exact absurd rfl (hio m)
  | invalid s =>
      simp [apply_config_update, read_existing_config, load_spec,
        deep_merge_empty_base new_config hwf]
  | valid v =>
      simp [apply_config_update, read_existing_config, load_spec,
        mergeE_refines]

/-- C5 (witness): a corrupted config file yields the overlay itself,
exactly as a merge into an empty mapping would. -/
theorem config_load_degrades_to_empty_base_witness :
    wf (Value.obj [("a", Value.num 1)]) = true ∧
    apply_config_update (FileContent.invalid "not valid json")
        (Value.obj [("a", Value.num 1)])
      = Except.ok (deep_merge_json (load_spec (FileContent.invalid "not valid json"))
          (Value.obj [("a", Value.num 1)])) :=
  ⟨by simp [wf, wfFields, nodupKeys, Value.containsKey],
   config_load_degrades_to_empty_base.2.2.2 _ _
     (by simp [wf, wfFields, nodupKeys, Value.containsKey])
     (fun m h => by cases h)⟩

/-- C6: length validation reports the exact actual length: whenever the
base64 text decodes to a byte count other than the expected 32 (key) or
12 (nonce), the validator fails with the length error carrying exactly the
actual decoded count (and not the bytes); an exact-length decode is
returned unchanged. -/
theorem decode_length_validation
    (decode : String → Except String (List Nat)) (s : String) (d : List Nat)
    (h : decode s = Except.ok d) :
    (d.length ≠ 32 →
      decode_and_validate_key decode s
        = Except.error (TokenProviderError.InvalidKeyLength d.length)) ∧
    (d.length = 32 → decode_and_validate_key decode s = Except.ok d) ∧
    (d.length ≠ 12 →
      decode_and_validate_nonce decode s
        = Except.error (TokenProviderError.InvalidIvLength d.length)) ∧
    (d.length = 12 → decode_and_validate_nonce decode s = Except.ok d) := by
  refine ⟨?_, ?_, ?_, ?_⟩ <;> intro hl <;>
    simp [decode_and_validate_key, decode_and_validate_nonce, h, hl]

/-- C6 (witness): a 31-byte decode when 32 bytes are expected fails with
`InvalidKeyLength { actual: 31 }`. -/
theorem decode_length_validation_witness :
    (fun _ : String => (Except.ok (List.replicate 31 0) :
        Except String (List Nat))) "k" = Except.ok (List.replicate 31 0) ∧
    decode_and_validate_key
        (fun _ => Except.ok (List.replicate 31 0)) "k"
      = Except.error (TokenProviderError.InvalidKeyLength
          (List.replicate 31 (0 : Nat)).length) :=
  ⟨rfl,
   (decode_length_validation (fun _ => Except.ok (List.replicate 31 0)) "k"
      (List.replicate 31 0) rfl).1 (by simp)⟩

/-- C7: the original pipeline error is never masked by cleanup: when the
pipeline fails and the self-deletion attempt also fails, `main` returns
the original pipeline error (the cleanup error is only printed as
additional output). -/
theorem original_error_preserved_on_cleanup_failure
    (e d : TokenProviderError) :
    main_result (Except.error e) (Except.error d) = Except.error e := rfl

/-- C8: merge is total: for every pair of documents the `Result`-returning
merge terminates (it is a total Lean function) and returns `Ok` with the
merged document; its error branch is never taken. -/
theorem merge_total_never_errors (a b : Value) :
    deep_merge_jsonE a b = Except.ok (deep_merge_json a b) :=
  mergeE_refines a b

/-- C9: merge never deletes keys when both sides are mappings: the key set
of the merged field list is exactly the union of the base's and the
overlay's key sets — in particular every key present in the base is still
present after the merge. -/
theorem merge_keys_union (e n : List (String × Value)) (k : String) :
    Value.containsKey (merge_objects e n) k
      = (Value.containsKey e k || Value.containsKey n k) :=
  containsKey_merge_objects e n k

/-- C10: an empty embedded ciphertext is rejected before decryption: after
both credential prompts succeed, `run_application` with an empty
`ENCRYPTED_CONFIG` fails with the crypto error, and its outcome does not
depend on the decrypt function — so decryption is never invoked. -/
theorem empty_ciphertext_rejected_before_decrypt
    (key : Key) (nonce : Nonce)
    (d₁ d₂ : List Nat → Key → Nonce → Except TokenProviderError (List Nat))
    (fu : List Nat → Except TokenProviderError String)
    (fs : String → Except TokenProviderError Value)
    (au : Value → Except TokenProviderError Unit) :
    run_application (Except.ok key) (Except.ok nonce) [] d₁ fu fs au
      = Except.error (TokenProviderError.CryptoError
          "No encrypted configuration data found. Please run Phase 8 to generate encrypted constants.")
    ∧ run_application (Except.ok key) (Except.ok nonce) [] d₁ fu fs au
      = run_application (Except.ok key) (Except.ok nonce) [] d₂ fu fs au :=
  ⟨rfl, rfl⟩

end TokenProvider
